import Mathlib

/-!
Verification of the string-family codecs of `src/str.rs` (the `String`,
`ObjectPath` and `Signature` implementations of `VariantType`) and of the
match-rule string form of `zbus/src/match_rule.rs`, as a shallow embedding.

Rust strings are embedded as lists of bytes (`List Nat`, each element a byte
value), match-rule text as lists of characters.  Machine-integer overflow is
made explicit with `% 2 ^ w` where it matters.  Functions that can fail return
an explicit result type; a Rust panic is a distinguished outcome.
-/

/-- Errors of the variant codec (`VariantError` in src/str.rs's crate). -/
inductive VariantError
  | IncorrectType
  | InvalidUtf8
  | InsufficientData
  | IncorrectSignature
  | ExcessData
  deriving DecidableEq

/-- Outcome of a codec operation: a value, a `VariantError`, or a Rust panic. -/
inductive VRes (α : Type)
  | ok (a : α)
  | err (e : VariantError)
  | panicked
  deriving DecidableEq

/-- Sequencing of codec outcomes (Rust's `?` operator). -/
def VRes.bind {α β : Type} : VRes α → (α → VRes β) → VRes β
  | .ok a, f => f a
  | .err e, _ => .err e
  | .panicked, _ => .panicked

/-- Mapping over a codec outcome (Rust's `Result::map`). -/
def VRes.map {α β : Type} (f : α → β) : VRes α → VRes β
  | .ok a => .ok (f a)
  | .err e => .err e
  | .panicked => .panicked

/-- Modelled from the spec: byte order of an encoding context.  The
`EncodingContext` type is not among the sources; §4.2 describes it as holding
a byte order and an absolute position. -/
inductive ByteOrder
  | little
  | big
  deriving DecidableEq

/-- Modelled from the spec (§4.2): immutable pair of byte order and the
absolute byte offset of the start of the buffer within the overall message. -/
structure EncodingContext where
  byteOrder : ByteOrder
  position : Nat
  deriving DecidableEq

/-- One more than the largest `usize` value (64-bit platform). -/
def usizeModulus : Nat := 2 ^ 64

/-- Rust release-build `usize` subtraction: wraps around on underflow. -/
def usizeSub (a b : Nat) : Nat := (a + usizeModulus - b) % usizeModulus

/-- Modelled from the spec (§4.2): `padding_for(alignment, offset)` is the
number of zero bytes needed before the next value so that its start is aligned
to `alignment` relative to the whole message. -/
def paddingFor (alignment pos : Nat) : Nat := (alignment - pos % alignment) % alignment

/-- The four bytes of a `u32`, least significant first. -/
def u32ToBytesLE (n : Nat) : List Nat :=
  [n % 256, n / 256 % 256, n / 256 ^ 2 % 256, n / 256 ^ 3 % 256]

/-- The four bytes of a `u32` in the given byte order. -/
def u32ToBytes : ByteOrder → Nat → List Nat
  | .little, n => u32ToBytesLE n
  | .big, n => (u32ToBytesLE n).reverse

/-- Read a `u32` from the first four bytes, least significant first. -/
def u32FromBytesLE : List Nat → Nat
  | b0 :: b1 :: b2 :: b3 :: _ => b0 + 256 * b1 + 256 ^ 2 * b2 + 256 ^ 3 * b3
  | _ => 0

/-- Read a `u32` from the first four bytes of a buffer in the given order. -/
def u32FromBytes (bo : ByteOrder) (bs : List Nat) : Nat :=
  match bo with
  | .little => u32FromBytesLE (bs.take 4)
  | .big => u32FromBytesLE ((bs.take 4).reverse)

/-- A UTF-8 continuation byte. -/
def isCont (b : Nat) : Bool := 0x80 ≤ b && b ≤ 0xBF

/-- UTF-8 validity of a byte sequence: the check performed by
`str::from_utf8`. -/
def isValidUtf8 : List Nat → Bool
  | [] => true
  | b :: rest =>
    if b ≤ 0x7F then isValidUtf8 rest
    else if 0xC2 ≤ b && b ≤ 0xDF then
      match rest with
      | c1 :: r => isCont c1 && isValidUtf8 r
      | [] => false
    else if b = 0xE0 then
      match rest with
      | c1 :: c2 :: r => (0xA0 ≤ c1 && c1 ≤ 0xBF) && isCont c2 && isValidUtf8 r
      | _ => false
    else if (0xE1 ≤ b && b ≤ 0xEC) || b = 0xEE || b = 0xEF then
      match rest with
      | c1 :: c2 :: r => isCont c1 && isCont c2 && isValidUtf8 r
      | _ => false
    else if b = 0xED then
      match rest with
      | c1 :: c2 :: r => (0x80 ≤ c1 && c1 ≤ 0x9F) && isCont c2 && isValidUtf8 r
      | _ => false
    else if b = 0xF0 then
      match rest with
      | c1 :: c2 :: c3 :: r => (0x90 ≤ c1 && c1 ≤ 0xBF) && isCont c2 && isCont c3 && isValidUtf8 r
      | _ => false
    else if 0xF1 ≤ b && b ≤ 0xF3 then
      match rest with
      | c1 :: c2 :: c3 :: r => isCont c1 && isCont c2 && isCont c3 && isValidUtf8 r
      | _ => false
    else if b = 0xF4 then
      match rest with
      | c1 :: c2 :: c3 :: r => (0x80 ≤ c1 && c1 ≤ 0x8F) && isCont c2 && isCont c3 && isValidUtf8 r
      | _ => false
    else false

/-- `str::from_utf8(..).map_err(|_| VariantError::InvalidUtf8)` over bytes;
the decoded text is the byte sequence itself. -/
def from_utf8 (bs : List Nat) : VRes (List Nat) :=
  if isValidUtf8 bs then .ok bs else .err .InvalidUtf8

/-- `SharedData::head(n)`: the first `n` bytes of the buffer; per §4.1 of the
spec it panics when `n` exceeds the length. -/
def sharedHead (data : List Nat) (n : Nat) : VRes (List Nat) :=
  if n ≤ data.length then .ok (data.take n) else .panicked

/-- Rust slice indexing `&bytes[a..b]`: panics when the range is invalid. -/
def rustSlice (bytes : List Nat) (a b : Nat) : VRes (List Nat) :=
  if a ≤ b ∧ b ≤ bytes.length then .ok ((bytes.drop a).take (b - a)) else .panicked

/-- Modelled from the spec (§7): `crate::ensure_sufficient_bytes` (not among
the sources) fails with `InsufficientData` when the buffer is shorter than
`size`. -/
def ensure_sufficient_bytes (bytes : List Nat) (size : Nat) : VRes Unit :=
  if bytes.length < size then .err .InsufficientData else .ok ()

/-- A type signature string, e.g. `"s"`. -/
abbrev DSig := List Char

/-- Modelled from the spec (§4.3): `ensure_correct_signature` (not among the
sources) validates that the supplied signature equals the type's own fixed
signature, failing with `IncorrectType` otherwise. -/
def ensure_correct_signature (expected got : DSig) : VRes Unit :=
  if got = expected then .ok () else .err .IncorrectType

/-- Modelled from the spec (§4.4, §6): `u32::slice_data_simple` locates the
four bytes of the `u32` at the front of the buffer (any alignment padding has
already been consumed by the caller, §4.3), failing with `InsufficientData`
when fewer than four bytes exist. -/
def u32_slice_data_simple (data : List Nat) (_ctx : EncodingContext) : VRes (List Nat) :=
  if data.length < 4 then .err .InsufficientData else .ok (data.take 4)

/-- Modelled from the spec (§4.4, §6): `u32::decode_simple` reads a `u32`
from the front of the buffer in the context's byte order. -/
def u32_decode_simple (data : List Nat) (ctx : EncodingContext) : VRes Nat :=
  if data.length < 4 then .err .InsufficientData
  else .ok (u32FromBytes ctx.byteOrder data)

/-- A decoded D-Bus object path (`ObjectPath` in src/str.rs), its text kept
as bytes. -/
structure ObjectPath where
  path : List Nat
  deriving DecidableEq

/-- A decoded D-Bus type signature (`Signature` in src/str.rs), its text kept
as bytes. -/
structure Signature where
  sigStr : List Nat
  deriving DecidableEq

/-- `ObjectPath::new`: stores the text with no validation. -/
def ObjectPath.new (path : List Nat) : ObjectPath := ⟨path⟩

/-- `ObjectPath::as_str`. -/
def ObjectPath.as_str (p : ObjectPath) : List Nat := p.path

/-- `Signature::new`: stores the text with no validation. -/
def Signature.new (s : List Nat) : Signature := ⟨s⟩

/-- `Signature::as_str`. -/
def Signature.as_str (g : Signature) : List Nat := g.sigStr

/-- The closed tagged union of decoded values (spec §3), restricted to the
types the sources exercise: the three string-family types and the `u32` used
for length fields. -/
inductive Variant
  | Str (s : List Nat)
  | ObjectPath (p : ObjectPath)
  | Signature (g : Signature)
  | U32 (n : Nat)
  deriving DecidableEq

/-! The plain-string codec: `impl VariantType for String` in src/str.rs.
Its namespace here is `Str`. -/

/-- `String::SIGNATURE_STR`. -/
def Str.SIGNATURE_STR : DSig := ['s']

/-- `String::ALIGNMENT`. -/
def Str.ALIGNMENT : Nat := 4

/-- `String::encode_into` from src/str.rs.  `ne` is the platform's native
byte order: the source writes the length with `u32::to_ne_bytes`.
`Self::add_padding` and `crate::utils::usize_to_u32` are not among the
sources and are modelled from the spec (§4.2, §4.5): padding relative to the
whole message, length as a 4-byte unsigned integer. -/
def Str.encode_into (ne : ByteOrder) (self : List Nat) (bytes : List Nat)
    (ctx : EncodingContext) : List Nat :=
  bytes
    ++ List.replicate (paddingFor Str.ALIGNMENT (ctx.position + bytes.length)) 0
    ++ u32ToBytes ne (self.length % 2 ^ 32)
    ++ self ++ [0]

/-- `String::slice_data` from src/str.rs: validate the signature, locate and
read the length field, then take `length + length-field size + 1` bytes via
`SharedData::head` (which panics when the buffer is too short). -/
def Str.slice_data (data : List Nat) (signature : DSig) (ctx : EncodingContext) :
    VRes (List Nat) :=
  VRes.bind (ensure_correct_signature Str.SIGNATURE_STR signature) fun _ =>
  VRes.bind (u32_slice_data_simple data ctx) fun len_slice =>
  VRes.bind (u32_decode_simple len_slice ctx) fun len =>
  sharedHead data (len + len_slice.length + 1)

/-- Modelled from the spec (§4.5): `Self::slice_for_decoding` (not among the
sources) bounds the decode: validate the signature, read the 4-byte length
field in the context's byte order, compute the end of the value as
`length_field_end + length + 1`, and verify sufficient bytes, failing with
`InsufficientData` otherwise. -/
def Str.slice_for_decoding (data : List Nat) (signature : DSig)
    (ctx : EncodingContext) : VRes (List Nat) :=
  VRes.bind (ensure_correct_signature Str.SIGNATURE_STR signature) fun _ =>
  if data.length < 4 then .err .InsufficientData
  else if data.length < 4 + u32FromBytes ctx.byteOrder data + 1 then .err .InsufficientData
  else .ok (data.take (4 + u32FromBytes ctx.byteOrder data + 1))

/-- `String::decode` from src/str.rs: bound the value, then validate
`bytes[4..last_index]` as UTF-8. -/
def Str.decode (data : List Nat) (signature : DSig) (ctx : EncodingContext) :
    VRes (List Nat) :=
  VRes.bind (Str.slice_for_decoding data signature ctx) fun slice =>
  VRes.bind (rustSlice slice 4 (usizeSub slice.length 1)) fun inner =>
  from_utf8 inner

/-- `<String as VariantType>::is`. -/
def Str.is : Variant → Bool
  | .Str _ => true
  | _ => false

/-- `<String as VariantType>::take_from_variant`. -/
def Str.take_from_variant : Variant → VRes (List Nat)
  | .Str v => .ok v
  | _ => .err .IncorrectType

/-- `<String as VariantType>::from_variant` (the borrow is modelled as the
value itself). -/
def Str.from_variant : Variant → VRes (List Nat)
  | .Str v => .ok v
  | _ => .err .IncorrectType

/-- `<String as VariantType>::to_variant`. -/
def Str.to_variant (s : List Nat) : Variant := .Str s

/-! The object-path codec: `impl VariantType for ObjectPath` in src/str.rs. -/

/-- `ObjectPath::SIGNATURE_STR`. -/
def ObjectPath.SIGNATURE_STR : DSig := ['o']

/-- `ObjectPath::ALIGNMENT`. -/
def ObjectPath.ALIGNMENT : Nat := 4

/-- `ObjectPath::encode_into`: delegates to the string codec. -/
def ObjectPath.encode_into (ne : ByteOrder) (self : ObjectPath) (bytes : List Nat)
    (ctx : EncodingContext) : List Nat :=
  Str.encode_into ne self.path bytes ctx

/-- `ObjectPath::slice_data`: validate the signature, then
`String::slice_data_simple(data, context)`.  `slice_data_simple` is not among
the sources and is modelled from the spec (§4.4): it calls `slice_data` with
the type's own signature. -/
def ObjectPath.slice_data (data : List Nat) (signature : DSig)
    (ctx : EncodingContext) : VRes (List Nat) :=
  VRes.bind (ensure_correct_signature ObjectPath.SIGNATURE_STR signature) fun _ =>
  Str.slice_data data Str.SIGNATURE_STR ctx

/-- `ObjectPath::decode`: validate the signature, then decode as a plain
string and wrap. -/
def ObjectPath.decode (data : List Nat) (signature : DSig)
    (ctx : EncodingContext) : VRes ObjectPath :=
  VRes.bind (ensure_correct_signature ObjectPath.SIGNATURE_STR signature) fun _ =>
  VRes.map ObjectPath.mk (Str.decode data Str.SIGNATURE_STR ctx)

/-- `<ObjectPath as VariantType>::is`. -/
def ObjectPath.is : Variant → Bool
  | .ObjectPath _ => true
  | _ => false

/-- `<ObjectPath as VariantType>::take_from_variant`. -/
def ObjectPath.take_from_variant : Variant → VRes ObjectPath
  | .ObjectPath v => .ok v
  | _ => .err .IncorrectType

/-- `<ObjectPath as VariantType>::from_variant` (borrow modelled as the
value). -/
def ObjectPath.from_variant : Variant → VRes ObjectPath
  | .ObjectPath v => .ok v
  | _ => .err .IncorrectType

/-- `<ObjectPath as VariantType>::to_variant`. -/
def ObjectPath.to_variant (p : ObjectPath) : Variant := .ObjectPath p

/-! The signature codec: `impl VariantType for Signature` in src/str.rs. -/

/-- `Signature::SIGNATURE_STR`. -/
def Signature.SIGNATURE_STR : DSig := ['g']

/-- `Signature::ALIGNMENT`. -/
def Signature.ALIGNMENT : Nat := 1

/-- `Signature::encode_into` from src/str.rs: push the length as a single
byte (`len as u8`, hence `% 256`), the text, and a NUL; the context is
ignored and no padding is inserted. -/
def Signature.encode_into (self : Signature) (bytes : List Nat)
    (_ctx : EncodingContext) : List Nat :=
  bytes ++ [self.sigStr.length % 256] ++ self.sigStr ++ [0]

/-- `Signature::slice_data` from src/str.rs: validate the signature, require
at least one byte, compute `last_index = bytes[0] + 2`, validate sufficiency,
and return that prefix. -/
def Signature.slice_data (data : List Nat) (signature : DSig)
    (_ctx : EncodingContext) : VRes (List Nat) :=
  VRes.bind (ensure_correct_signature Signature.SIGNATURE_STR signature) fun _ =>
  if data.length < 1 then .err .InsufficientData
  else
    match data with
    | [] => .err .InsufficientData
    | b0 :: _ =>
      VRes.bind (ensure_sufficient_bytes data (b0 + 2)) fun _ =>
      sharedHead data (b0 + 2)

/-- `Signature::decode` from src/str.rs: validate the signature, set
`last_index = data.len() - 1` (wrapping `usize` subtraction), run the
trivially-satisfied `ensure_sufficient_bytes(bytes, last_index)`, then
validate `bytes[1..last_index]` as UTF-8.  Note that the length byte is
never read. -/
def Signature.decode (data : List Nat) (signature : DSig)
    (_ctx : EncodingContext) : VRes Signature :=
  VRes.bind (ensure_correct_signature Signature.SIGNATURE_STR signature) fun _ =>
  VRes.bind (ensure_sufficient_bytes data (usizeSub data.length 1)) fun _ =>
  VRes.bind (rustSlice data 1 (usizeSub data.length 1)) fun inner =>
  VRes.map Signature.mk (from_utf8 inner)

/-- `<Signature as VariantType>::is`. -/
def Signature.is : Variant → Bool
  | .Signature _ => true
  | _ => false

/-- `<Signature as VariantType>::take_from_variant`. -/
def Signature.take_from_variant : Variant → VRes Signature
  | .Signature v => .ok v
  | _ => .err .IncorrectType

/-- `<Signature as VariantType>::from_variant` (borrow modelled as the
value). -/
def Signature.from_variant : Variant → VRes Signature
  | .Signature v => .ok v
  | _ => .err .IncorrectType

/-- `<Signature as VariantType>::to_variant`. -/
def Signature.to_variant (g : Signature) : Variant := .Signature g

/-- The length-field write as the specification words it (spec §4.5: length
in the context's byte order), for comparison with `Str.encode_into`, which
follows the source's `to_ne_bytes`. -/
def Str.encode_into_specOrder (self : List Nat) (bytes : List Nat)
    (ctx : EncodingContext) : List Nat :=
  bytes
    ++ List.replicate (paddingFor Str.ALIGNMENT (ctx.position + bytes.length)) 0
    ++ u32ToBytes ctx.byteOrder (self.length % 2 ^ 32)
    ++ self ++ [0]

/-! The match-rule string form: zbus/src/match_rule.rs. -/

/-- Modelled from the spec: the `MessageType` enum of the message header is
not among the sources; its variants are the ones matched in
`MatchRule::to_string`. -/
inductive MessageType
  | Invalid
  | Error
  | MethodCall
  | MethodReturn
  | Signal
  deriving DecidableEq

/-- `MatchRulePathSpec` from zbus/src/match_rule.rs: path or path namespace. -/
inductive MatchRulePathSpec
  | Path (p : List Char)
  | PathNamespace (p : List Char)
  deriving DecidableEq

/-- `MatchRule` from zbus/src/match_rule.rs.  The name types
(`BusName`, `InterfaceName`, `MemberName`, `UniqueName`, `ObjectPath`,
`Str`) are not among the sources and name validation is out of the spec's
scope (§1), so names are carried as raw character lists. -/
structure MatchRule where
  msg_type : Option MessageType := none
  sender : Option (List Char) := none
  interface : Option (List Char) := none
  member : Option (List Char) := none
  path_spec : Option MatchRulePathSpec := none
  destination : Option (List Char) := none
  args : List (List Char) := []
  arg_paths : List (List Char) := []
  arg0namespace : Option (List Char) := none
  deriving DecidableEq

/-- Outcome of a match-rule operation: a value, `Error::InvalidMatchRule`,
or a Rust panic. -/
inductive MRes (α : Type)
  | ok (a : α)
  | invalidMatchRule
  | panicked
  deriving DecidableEq

/-- The single-quote character used around match-rule values. -/
def quoteChar : Char := Char.ofNat 39

/-- `add_match_rule_string_component` from zbus/src/match_rule.rs. -/
def add_match_rule_string_component (rule : List Char) (key value : List Char) :
    List Char :=
  (if rule.isEmpty then rule else rule ++ [','])
    ++ key ++ ['='] ++ [quoteChar] ++ value ++ [quoteChar]

/-- `MatchRule::to_string` from zbus/src/match_rule.rs; the
`MessageType::Invalid` arm executes a Rust panic. -/
def MatchRule.to_string (r : MatchRule) : MRes (List Char) :=
  let s : List Char := []
  let afterType : MRes (List Char) :=
    match r.msg_type with
    | none => .ok s
    | some .Error => .ok (add_match_rule_string_component s "type".toList "error".toList)
    | some .Invalid => .panicked
    | some .MethodCall =>
      .ok (add_match_rule_string_component s "type".toList "method_call".toList)
    | some .MethodReturn =>
      .ok (add_match_rule_string_component s "type".toList "method_return".toList)
    | some .Signal =>
      .ok (add_match_rule_string_component s "type".toList "signal".toList)
  match afterType with
  | .panicked => .panicked
  | .invalidMatchRule => .invalidMatchRule
  | .ok s0 =>
    let s1 := match r.sender with
      | none => s0
      | some v => add_match_rule_string_component s0 "sender".toList v
    let s2 := match r.interface with
      | none => s1
      | some v => add_match_rule_string_component s1 "interface".toList v
    let s3 := match r.member with
      | none => s2
      | some v => add_match_rule_string_component s2 "member".toList v
    let s4 := match r.destination with
      | none => s3
      | some v => add_match_rule_string_component s3 "destination".toList v
    let s5 := match r.path_spec with
      | none => s4
      | some (.Path p) => add_match_rule_string_component s4 "path".toList p
      | some (.PathNamespace p) =>
        add_match_rule_string_component s4 "path_namespace".toList p
    .ok s5

/-- Rust `str::split(sep)` worker, accumulating the current piece reversed. -/
def rustSplitAux (sep : Char) : List Char → List Char → List (List Char)
  | [], cur => [cur.reverse]
  | c :: rest, cur =>
    if c = sep then cur.reverse :: rustSplitAux sep rest []
    else rustSplitAux sep rest (c :: cur)

/-- Rust `str::split(sep)`: splits at every separator, always yielding at
least one piece. -/
def rustSplit (sep : Char) (s : List Char) : List (List Char) := rustSplitAux sep s []

/-- Rust `str::split_once(sep)`: the pieces before and after the first
separator, or `none` when the separator does not occur. -/
def rustSplitOnce (sep : Char) : List Char → Option (List Char × List Char)
  | [] => none
  | c :: rest =>
    if c = sep then some ([], rest)
    else
      match rustSplitOnce sep rest with
      | none => none
      | some (a, b) => some (c :: a, b)

/-- The key dispatch of the `for component in components` loop of
`MatchRule::try_from`, applied to the unquoted value `v`.  The
`MatchRuleBuilder` is not among the sources and is modelled from the spec
and the usage in match_rule.rs: each setter fills one field,
`add_arg`/`add_arg_path` append, and, name validation being out of the
spec's scope (§1), the setters accept any string. -/
def parseKeyValue (b : MatchRule) (key v : List Char) : MRes MatchRule :=
  if key = "type".toList then
    if v = "error".toList then .ok { b with msg_type := some .Error }
    else if v = "method_call".toList then .ok { b with msg_type := some .MethodCall }
    else if v = "method_return".toList then .ok { b with msg_type := some .MethodReturn }
    else if v = "signal".toList then .ok { b with msg_type := some .Signal }
    else .invalidMatchRule
  else if key = "sender".toList then .ok { b with sender := some v }
  else if key = "interface".toList then .ok { b with interface := some v }
  else if key = "member".toList then .ok { b with member := some v }
  else if key = "path".toList then .ok { b with path_spec := some (.Path v) }
  else if key = "path_namespace".toList then
    .ok { b with path_spec := some (.PathNamespace v) }
  else if key = "destination".toList then .ok { b with destination := some v }
  else if key = "arg0namespace".toList then .ok { b with arg0namespace := some v }
  else if key = "arg".toList then .ok { b with args := b.args ++ [v] }
  else if key = "arg_path".toList then .ok { b with arg_paths := b.arg_paths ++ [v] }
  else .invalidMatchRule

/-- One iteration of the `for component in components` loop of
`MatchRule::try_from`: split the component at the first `=`, validate the
quoted value, strip the quotes, and dispatch on the key. -/
def parseComponent (b : MatchRule) (component : List Char) : MRes MatchRule :=
  match rustSplitOnce '=' component with
  | none => .invalidMatchRule
  | some (key, value) =>
    if key = [] ∨ value.length < 3 ∨ value.head? ≠ some quoteChar
        ∨ value.getLast? ≠ some quoteChar then
      .invalidMatchRule
    else
      parseKeyValue b key ((value.drop 1).dropLast)

/-- The `for component in components` loop of `MatchRule::try_from`,
threading the builder and stopping at the first error. -/
def parseComponents (b : MatchRule) : List (List Char) → MRes MatchRule
  | [] => .ok b
  | c :: rest =>
    match parseComponent b c with
    | .ok b2 => parseComponents b2 rest
    | .invalidMatchRule => .invalidMatchRule
    | .panicked => .panicked

/-- `MatchRule::try_from(&str)` from zbus/src/match_rule.rs: split on `,`
(the emptiness peek never fires, a split is never empty), then fold the
components into a fresh builder. -/
def MatchRule.try_from (s : List Char) : MRes MatchRule :=
  if (rustSplit ',' s).isEmpty then .invalidMatchRule
  else parseComponents {} (rustSplit ',' s)

/-- Modelled from the spec: the textual value of each message type in a match
rule; `MessageType::Invalid` has none (`to_string` panics on it), so the
empty list returned for it is never used under a successful `to_string`. -/
def typeValue : MessageType → List Char
  | .Invalid => []
  | .Error => "error".toList
  | .MethodCall => "method_call".toList
  | .MethodReturn => "method_return".toList
  | .Signal => "signal".toList

/-- The `key='value'` component contributed by one optional string field of a
match rule. -/
def optComp (key : List Char) : Option (List Char) → List (List Char × List Char)
  | none => []
  | some v => [(key, v)]

/-- The component contributed by the message-type field. -/
def typeComp : Option MessageType → List (List Char × List Char)
  | none => []
  | some t => [("type".toList, typeValue t)]

/-- The component contributed by the path field. -/
def pathComp : Option MatchRulePathSpec → List (List Char × List Char)
  | none => []
  | some (.Path p) => [("path".toList, p)]
  | some (.PathNamespace p) => [("path_namespace".toList, p)]

/-- The key/value components `MatchRule::to_string` emits, in emission
order. -/
def MatchRule.comps (r : MatchRule) : List (List Char × List Char) :=
  typeComp r.msg_type ++ optComp "sender".toList r.sender
    ++ optComp "interface".toList r.interface ++ optComp "member".toList r.member
    ++ optComp "destination".toList r.destination ++ pathComp r.path_spec

/-- One rendered `key='value'` component. -/
def renderComponent (kv : List Char × List Char) : List Char :=
  kv.1 ++ ['='] ++ [quoteChar] ++ kv.2 ++ [quoteChar]

/-- Rendered components after the first, each preceded by a comma. -/
def renderTail : List (List Char × List Char) → List Char
  | [] => []
  | kv :: rest => ',' :: (renderComponent kv ++ renderTail rest)

/-- The fully rendered match-rule string. -/
def renderAll : List (List Char × List Char) → List Char
  | [] => []
  | kv :: rest => renderComponent kv ++ renderTail rest

/-- The folding step of `to_string` over key/value components. -/
def addKV (acc : List Char) (kv : List Char × List Char) : List Char :=
  add_match_rule_string_component acc kv.1 kv.2

/-- The keys `MatchRule::to_string` can emit. -/
def allowedKeys : List (List Char) :=
  ["type".toList, "sender".toList, "interface".toList, "member".toList,
    "destination".toList, "path".toList, "path_namespace".toList]

/-- The optional field contains no comma (guaranteed in the real program by
the D-Bus name validation that is out of the spec's scope, §1). -/
def optNoComma : Option (List Char) → Prop
  | none => True
  | some v => ',' ∉ v

/-- The path field contains no comma. -/
def pathNoComma : Option MatchRulePathSpec → Prop
  | none => True
  | some (.Path p) => ',' ∉ p
  | some (.PathNamespace p) => ',' ∉ p

/-- All name and path fields of the rule are comma-free, as D-Bus name and
path syntax guarantees for real rules. -/
def MatchRule.commaFree (r : MatchRule) : Prop :=
  optNoComma r.sender ∧ optNoComma r.interface ∧ optNoComma r.member
    ∧ optNoComma r.destination ∧ pathNoComma r.path_spec

instance (o : Option (List Char)) : Decidable (optNoComma o) :=
  match o with
  | none => .isTrue trivial
  | some v => inferInstanceAs (Decidable (Char.ofNat 44 ∉ v))

instance (o : Option MatchRulePathSpec) : Decidable (pathNoComma o) :=
  match o with
  | none => .isTrue trivial
  | some (.Path p) => inferInstanceAs (Decidable (Char.ofNat 44 ∉ p))
  | some (.PathNamespace p) => inferInstanceAs (Decidable (Char.ofNat 44 ∉ p))

instance (r : MatchRule) : Decidable r.commaFree :=
  inferInstanceAs (Decidable (_ ∧ _ ∧ _ ∧ _ ∧ _))

/-! Helper lemmas about the codec building blocks. -/

theorem VRes.bind_ok {α β : Type} (a : α) (f : α → VRes β) :
    VRes.bind (.ok a) f = f a := rfl

theorem VRes.bind_err {α β : Type} (e : VariantError) (f : α → VRes β) :
    VRes.bind (.err e) f = .err e := rfl

theorem VRes.map_ok {α β : Type} (f : α → β) (a : α) :
    VRes.map f (.ok a) = .ok (f a) := rfl

theorem VRes.map_err {α β : Type} (f : α → β) (e : VariantError) :
    VRes.map f (.err e : VRes α) = .err e := rfl

theorem ensure_correct_signature_self (sig : DSig) :
    ensure_correct_signature sig sig = .ok () := by
  simp [ensure_correct_signature]

theorem u32ToBytes_length (bo : ByteOrder) (n : Nat) : (u32ToBytes bo n).length = 4 := by
  cases bo <;> simp [u32ToBytes, u32ToBytesLE]

theorem u32FromBytes_u32ToBytes (bo : ByteOrder) (n : Nat) (rest : List Nat)
    (h : n < 2 ^ 32) : u32FromBytes bo (u32ToBytes bo n ++ rest) = n := by
  cases bo <;>
  · simp only [u32ToBytes, u32ToBytesLE, u32FromBytes, u32FromBytesLE,
      List.reverse_cons, List.reverse_nil, List.nil_append, List.cons_append,
      List.append_assoc, List.take_succ_cons, List.take_zero]
    norm_num
    omega

theorem usizeSub_one (m : Nat) (h1 : 1 ≤ m) (h2 : m ≤ 2 ^ 64) :
    usizeSub m 1 = m - 1 := by
  unfold usizeSub usizeModulus
  omega

theorem Str.encode_into_pos_zero (ne bo : ByteOrder) (s : List Nat)
    (hl : s.length < 2 ^ 32) :
    Str.encode_into ne s [] ⟨bo, 0⟩ = u32ToBytes ne s.length ++ (s ++ [0]) := by
  unfold Str.encode_into
  rw [Nat.mod_eq_of_lt hl]
  simp [paddingFor, Str.ALIGNMENT]

theorem Str.slice_for_decoding_encoded (bo : ByteOrder) (s : List Nat)
    (hl : s.length < 2 ^ 32) :
    Str.slice_for_decoding (u32ToBytes bo s.length ++ (s ++ [0])) Str.SIGNATURE_STR ⟨bo, 0⟩
      = .ok (u32ToBytes bo s.length ++ (s ++ [0])) := by
  have hlen : (u32ToBytes bo s.length ++ (s ++ [0])).length = s.length + 5 := by
    simp [u32ToBytes_length]
    omega
  unfold Str.slice_for_decoding
  rw [ensure_correct_signature_self, VRes.bind_ok]
  rw [u32FromBytes_u32ToBytes bo s.length (s ++ [0]) hl, hlen]
  rw [if_neg (by omega), if_neg (by omega)]
  rw [show 4 + s.length + 1 = s.length + 5 by omega, ← hlen, List.take_length]

theorem Str.decode_encoded (bo : ByteOrder) (s : List Nat)
    (hv : isValidUtf8 s = true) (hl : s.length < 2 ^ 32) :
    Str.decode (u32ToBytes bo s.length ++ (s ++ [0])) Str.SIGNATURE_STR ⟨bo, 0⟩ = .ok s := by
  have hlen : (u32ToBytes bo s.length ++ (s ++ [0])).length = s.length + 5 := by
    simp [u32ToBytes_length]
    omega
  unfold Str.decode
  rw [Str.slice_for_decoding_encoded bo s hl, VRes.bind_ok]
  rw [hlen, usizeSub_one (s.length + 5) (by omega) (by omega)]
  unfold rustSlice
  rw [hlen]
  rw [if_pos (by omega : 4 ≤ s.length + 5 - 1 ∧ s.length + 5 - 1 ≤ s.length + 5)]
  rw [VRes.bind_ok]
  rw [List.drop_left' (u32ToBytes_length bo s.length)]
  rw [show s.length + 5 - 1 - 4 = s.length by omega]
  rw [List.take_left' rfl]
  simp [from_utf8, hv]

theorem Str.decode_truncated (bo : ByteOrder) (s : List Nat) (hl : s.length < 2 ^ 32) :
    Str.decode (u32ToBytes bo s.length ++ s) Str.SIGNATURE_STR ⟨bo, 0⟩
      = .err .InsufficientData := by
  have hlen : (u32ToBytes bo s.length ++ s).length = s.length + 4 := by
    simp [u32ToBytes_length]
    omega
  unfold Str.decode Str.slice_for_decoding
  rw [ensure_correct_signature_self, VRes.bind_ok]
  rw [u32FromBytes_u32ToBytes bo s.length s hl, hlen]
  rw [if_neg (by omega), if_pos (by omega), VRes.bind_err]

theorem Signature.decode_roundtrip (ctx : EncodingContext) (g : List Nat)
    (hv : isValidUtf8 g = true) (hl : g.length ≤ 255) :
    Signature.decode (Signature.encode_into ⟨g⟩ [] ctx) Signature.SIGNATURE_STR ctx
      = .ok ⟨g⟩ := by
  have henc : Signature.encode_into ⟨g⟩ [] ctx = (g.length % 256 :: g) ++ [0] := by
    simp [Signature.encode_into]
  rw [henc]
  have hlen : ((g.length % 256 :: g) ++ [0]).length = g.length + 2 := by
    simp
  unfold Signature.decode
  rw [ensure_correct_signature_self, VRes.bind_ok]
  rw [hlen, usizeSub_one (g.length + 2) (by omega) (by omega)]
  unfold ensure_sufficient_bytes
  rw [hlen, if_neg (by omega), VRes.bind_ok]
  unfold rustSlice
  rw [hlen]
  rw [if_pos (by omega : 1 ≤ g.length + 2 - 1 ∧ g.length + 2 - 1 ≤ g.length + 2)]
  rw [VRes.bind_ok]
  simp only [List.drop_one, List.cons_append, List.tail_cons]
  rw [show g.length + 2 - 1 - 1 = g.length by omega]
  rw [List.take_left' rfl]
  simp [from_utf8, hv, VRes.map]

theorem Signature.slice_truncated (ctx : EncodingContext) (g : List Nat)
    (hl : g.length ≤ 255) :
    Signature.slice_data ((Signature.encode_into ⟨g⟩ [] ctx).dropLast)
      Signature.SIGNATURE_STR ctx = .err .InsufficientData := by
  have henc : (Signature.encode_into ⟨g⟩ [] ctx).dropLast = g.length % 256 :: g := by
    have h0 : Signature.encode_into ⟨g⟩ [] ctx = (g.length % 256 :: g) ++ [0] := by
      simp [Signature.encode_into]
    rw [h0, List.dropLast_concat]
  rw [henc]
  have hmod : g.length % 256 = g.length := Nat.mod_eq_of_lt (by omega)
  unfold Signature.slice_data
  rw [ensure_correct_signature_self, VRes.bind_ok]
  rw [if_neg (by simp)]
  show VRes.bind (ensure_sufficient_bytes (g.length % 256 :: g) (g.length % 256 + 2)) _
    = .err .InsufficientData
  unfold ensure_sufficient_bytes
  rw [if_pos (by simp [hmod]), VRes.bind_err]

/-! Claim theorems. -/

/-- C1, amended: the encode/decode round trip holds for the string and
object-path codecs at context position 0 when the context's byte order equals
the platform's native byte order (the source writes the length with
`to_ne_bytes`), and for the signature codec at any context; the claim's
unconditional version over position-0 contexts fails when the context's byte
order differs from the native one (see the counterexample). -/
theorem claim_C1_roundtrip_matched_order :
    ∀ (bo : ByteOrder) (s : List Nat), isValidUtf8 s = true → s.length < 2 ^ 32 →
      Str.decode (Str.encode_into bo s [] ⟨bo, 0⟩) Str.SIGNATURE_STR ⟨bo, 0⟩ = .ok s
      ∧ ObjectPath.decode (ObjectPath.encode_into bo ⟨s⟩ [] ⟨bo, 0⟩)
          ObjectPath.SIGNATURE_STR ⟨bo, 0⟩ = .ok ⟨s⟩
      ∧ (s.length ≤ 255 →
          Signature.decode (Signature.encode_into ⟨s⟩ [] ⟨bo, 0⟩)
            Signature.SIGNATURE_STR ⟨bo, 0⟩ = .ok ⟨s⟩) := by
  intro bo s hv hl
  have hstr : Str.decode (Str.encode_into bo s [] ⟨bo, 0⟩) Str.SIGNATURE_STR ⟨bo, 0⟩
      = .ok s := by
    rw [Str.encode_into_pos_zero bo bo s hl]
    exact Str.decode_encoded bo s hv hl
  refine ⟨hstr, ?_, fun h255 => Signature.decode_roundtrip ⟨bo, 0⟩ s hv h255⟩
  simp only [ObjectPath.decode, ObjectPath.encode_into]
  rw [ensure_correct_signature_self, VRes.bind_ok, hstr, VRes.map_ok]

/-- Witness for C1 at the string `"hi"` (bytes 104 105), little-endian. -/
theorem claim_C1_witness :
    Str.decode (Str.encode_into .little [104, 105] [] ⟨.little, 0⟩)
        Str.SIGNATURE_STR ⟨.little, 0⟩ = .ok [104, 105]
    ∧ Signature.decode (Signature.encode_into ⟨[104, 105]⟩ [] ⟨.little, 0⟩)
        Signature.SIGNATURE_STR ⟨.little, 0⟩ = .ok ⟨[104, 105]⟩ := by
  have h := claim_C1_roundtrip_matched_order .little [104, 105] (by decide) (by decide)
  exact ⟨h.1, h.2.2 (by decide)⟩

/-- Counterexample to C1 as stated: with the same position-0 context used for
encode and decode but a context byte order (big) different from the platform's
native order (little), decoding the encoding of `"a"` fails instead of
returning the string. -/
theorem claim_C1_counterexample :
    Str.decode (Str.encode_into .little [97] [] ⟨.big, 0⟩) Str.SIGNATURE_STR ⟨.big, 0⟩
      = .err .InsufficientData
    ∧ Str.decode (Str.encode_into .little [97] [] ⟨.big, 0⟩) Str.SIGNATURE_STR ⟨.big, 0⟩
      ≠ .ok [97] := by
  exact ⟨by decide, by decide⟩

/-- C2, amended: `String::encode_into` writes the byte count in the
platform's native byte order (`to_ne_bytes`), i.e. it equals the
spec-ordered writer run with the context's byte-order field replaced by the
native order; in particular, with little-endian native order, encoding
`"hi"` at context position 0 appends exactly `02 00 00 00 68 69 00`
whatever the context's byte-order field says. -/
theorem claim_C2_encode_native_order :
    (∀ (ne : ByteOrder) (s bytes : List Nat) (ctx : EncodingContext),
      Str.encode_into ne s bytes ctx = Str.encode_into_specOrder s bytes ⟨ne, ctx.position⟩)
    ∧ (∀ bo : ByteOrder,
      Str.encode_into .little [104, 105] [] ⟨bo, 0⟩ = [2, 0, 0, 0, 104, 105, 0]) := by
  refine ⟨fun ne s bytes ctx => rfl, fun bo => ?_⟩
  cases bo <;> decide

/-- Counterexample to C2 as stated: with a big-endian context (and
little-endian native order) the length bytes do not follow the context's
byte order. -/
theorem claim_C2_counterexample :
    Str.encode_into .little [97] [] ⟨.big, 0⟩ ≠ Str.encode_into_specOrder [97] [] ⟨.big, 0⟩
    ∧ Str.encode_into .little [97] [] ⟨.big, 0⟩ = [1, 0, 0, 0, 97, 0]
    ∧ Str.encode_into_specOrder [97] [] ⟨.big, 0⟩ = [0, 0, 0, 1, 97, 0] := by
  exact ⟨by decide, by decide, by decide⟩

/-- C3, amended: on the buffer `03 61 00`, `Signature::slice_data` (which
reads the length byte, computes the end index `1 + 3 + 1` and validates
sufficiency) fails with `InsufficientData`, but `Signature::decode` itself
never reads the length byte and returns `Ok(Signature("a"))`. -/
theorem claim_C3_signature_slice_vs_decode :
    ∀ ctx : EncodingContext,
      Signature.slice_data [3, 97, 0] Signature.SIGNATURE_STR ctx = .err .InsufficientData
      ∧ Signature.decode [3, 97, 0] Signature.SIGNATURE_STR ctx = .ok ⟨[97]⟩ :=
  fun _ => ⟨rfl, rfl⟩

/-- Counterexample to C3 as stated: decoding `03 61 00` with the signature
codec does not fail with `InsufficientData`; it succeeds with `"a"`. -/
theorem claim_C3_counterexample :
    Signature.decode [3, 97, 0] Signature.SIGNATURE_STR ⟨.little, 0⟩
      ≠ .err .InsufficientData
    ∧ Signature.decode [3, 97, 0] Signature.SIGNATURE_STR ⟨.little, 0⟩ = .ok ⟨[97]⟩ := by
  exact ⟨by decide, by decide⟩

/-- C4, amended: removing the final byte of a valid encoding makes `decode`
fail with `InsufficientData` for the string and object-path codecs (at
position-0 contexts whose byte order is the native one), and makes
`Signature::slice_data` fail with `InsufficientData`; `Signature::decode`
itself, which ignores the length byte, can instead succeed on truncated
input (see the counterexample). -/
theorem claim_C4_truncation :
    ∀ (bo : ByteOrder) (s : List Nat), s.length < 2 ^ 32 →
      Str.decode ((Str.encode_into bo s [] ⟨bo, 0⟩).dropLast) Str.SIGNATURE_STR ⟨bo, 0⟩
        = .err .InsufficientData
      ∧ ObjectPath.decode ((ObjectPath.encode_into bo ⟨s⟩ [] ⟨bo, 0⟩).dropLast)
          ObjectPath.SIGNATURE_STR ⟨bo, 0⟩ = .err .InsufficientData
      ∧ (s.length ≤ 255 → ∀ ctx : EncodingContext,
          Signature.slice_data ((Signature.encode_into ⟨s⟩ [] ctx).dropLast)
            Signature.SIGNATURE_STR ctx = .err .InsufficientData) := by
  intro bo s hl
  have hdrop : (Str.encode_into bo s [] ⟨bo, 0⟩).dropLast = u32ToBytes bo s.length ++ s := by
    rw [Str.encode_into_pos_zero bo bo s hl]
    rw [show u32ToBytes bo s.length ++ (s ++ [0]) = (u32ToBytes bo s.length ++ s) ++ [0] by
      rw [List.append_assoc]]
    exact List.dropLast_concat
  have hstr : Str.decode ((Str.encode_into bo s [] ⟨bo, 0⟩).dropLast)
      Str.SIGNATURE_STR ⟨bo, 0⟩ = .err .InsufficientData := by
    rw [hdrop]
    exact Str.decode_truncated bo s hl
  refine ⟨hstr, ?_, fun h255 ctx => Signature.slice_truncated ctx s h255⟩
  simp only [ObjectPath.decode, ObjectPath.encode_into]
  rw [ensure_correct_signature_self, VRes.bind_ok, hstr, VRes.map_err]

/-- Witness for C4 at the string `"hi"` (bytes 104 105), little-endian. -/
theorem claim_C4_witness :
    Str.decode ((Str.encode_into .little [104, 105] [] ⟨.little, 0⟩).dropLast)
        Str.SIGNATURE_STR ⟨.little, 0⟩ = .err .InsufficientData
    ∧ Signature.slice_data ((Signature.encode_into ⟨[104, 105]⟩ [] ⟨.little, 0⟩).dropLast)
        Signature.SIGNATURE_STR ⟨.little, 0⟩ = .err .InsufficientData := by
  have h := claim_C4_truncation .little [104, 105] (by decide)
  exact ⟨h.1, h.2.2 (by decide) ⟨.little, 0⟩⟩

/-- Counterexample to C4 as stated: the signature codec's `decode` succeeds
on the truncated encoding of the signature `"s"` (bytes `01 73`), returning
the empty signature instead of failing with `InsufficientData`. -/
theorem claim_C4_counterexample :
    Signature.encode_into ⟨[115]⟩ [] ⟨.little, 0⟩ = [1, 115, 0]
    ∧ Signature.decode ((Signature.encode_into ⟨[115]⟩ [] ⟨.little, 0⟩).dropLast)
        Signature.SIGNATURE_STR ⟨.little, 0⟩ = .ok ⟨[]⟩
    ∧ Signature.decode ((Signature.encode_into ⟨[115]⟩ [] ⟨.little, 0⟩).dropLast)
        Signature.SIGNATURE_STR ⟨.little, 0⟩ ≠ .err .InsufficientData := by
  exact ⟨by decide, by decide, by decide⟩

/-- C9: the signature codec's output is independent of the encoding context
(`encode_into` ignores it entirely), inserts no padding, and encoding the
signature `"s"` appends exactly `01 73 00` after any prior bytes, at every
context. -/
theorem claim_C9_signature_encode_context_free :
    ∀ (g : Signature) (bytes : List Nat) (ctx ctx2 : EncodingContext),
      Signature.encode_into g bytes ctx = Signature.encode_into g bytes ctx2
      ∧ Signature.encode_into g bytes ctx
          = bytes ++ [g.sigStr.length % 256] ++ g.sigStr ++ [0]
      ∧ Signature.encode_into ⟨[115]⟩ bytes ctx = bytes ++ [1, 115, 0] := by
  intro g bytes ctx ctx2
  refine ⟨rfl, rfl, ?_⟩
  simp [Signature.encode_into]

/-- C5 (code bug): the claim says no operation panics, but
`MatchRule::to_string` panics on `MessageType::Invalid` (the spec itself
flags this as a design defect) and `Signature::decode` panics on any 1-byte
buffer, where `&bytes[1..last_index]` is evaluated with `last_index = 0`;
on the empty buffer (release build) it does return `InsufficientData`. -/
theorem claim_C5_panic_paths :
    MatchRule.to_string { msg_type := some .Invalid } = .panicked
    ∧ Signature.decode [5] Signature.SIGNATURE_STR ⟨.little, 0⟩ = .panicked
    ∧ Signature.decode [] Signature.SIGNATURE_STR ⟨.little, 0⟩ = .err .InsufficientData := by
  exact ⟨rfl, by decide, by decide⟩

/-- C6: for each of the three leaf types, `slice_data` and `decode` called
with any signature different from the type's own fixed one fail with
`IncorrectType`, whatever the buffer and context. -/
theorem claim_C6_wrong_signature :
    ∀ (signature : DSig) (data : List Nat) (ctx : EncodingContext),
      (signature ≠ Str.SIGNATURE_STR →
        Str.slice_data data signature ctx = .err .IncorrectType
        ∧ Str.decode data signature ctx = .err .IncorrectType)
      ∧ (signature ≠ ObjectPath.SIGNATURE_STR →
        ObjectPath.slice_data data signature ctx = .err .IncorrectType
        ∧ ObjectPath.decode data signature ctx = .err .IncorrectType)
      ∧ (signature ≠ Signature.SIGNATURE_STR →
        Signature.slice_data data signature ctx = .err .IncorrectType
        ∧ Signature.decode data signature ctx = .err .IncorrectType) := by
  intro signature data ctx
  have hne : ∀ expected : DSig, signature ≠ expected →
      ensure_correct_signature expected signature = .err .IncorrectType := by
    intro e h
    simp [ensure_correct_signature, h]
  refine ⟨fun h => ⟨?_, ?_⟩, fun h => ⟨?_, ?_⟩, fun h => ⟨?_, ?_⟩⟩
  · unfold Str.slice_data
    rw [hne _ h, VRes.bind_err]
  · unfold Str.decode Str.slice_for_decoding
    rw [hne _ h, VRes.bind_err, VRes.bind_err]
  · unfold ObjectPath.slice_data
    rw [hne _ h, VRes.bind_err]
  · unfold ObjectPath.decode
    rw [hne _ h, VRes.bind_err]
  · unfold Signature.slice_data
    rw [hne _ h, VRes.bind_err]
  · unfold Signature.decode
    rw [hne _ h, VRes.bind_err]

/-- Witness for C6: the string codec rejects signature `"o"` and the
signature codec rejects signature `"s"`, on the empty buffer. -/
theorem claim_C6_witness :
    Str.slice_data [] ['o'] ⟨.little, 0⟩ = .err .IncorrectType
    ∧ Signature.decode [] ['s'] ⟨.little, 0⟩ = .err .IncorrectType := by
  have h1 := claim_C6_wrong_signature ['o'] [] ⟨.little, 0⟩
  have h2 := claim_C6_wrong_signature ['s'] [] ⟨.little, 0⟩
  exact ⟨(h1.1 (by decide)).1, (h2.2.2 (by decide)).2⟩

/-- C7: wrapping into a `Variant` is total and unwrapping is partial:
unwrapping an object-path variant as a plain string fails with
`IncorrectType` while unwrapping it as an object path returns the original
value; for each of the three types, `take_from_variant ∘ to_variant` is the
identity and `take_from_variant` of a variant with a different tag fails
with `IncorrectType`. -/
theorem claim_C7_variant_wrap_unwrap :
    (∀ p : ObjectPath,
      Str.take_from_variant (ObjectPath.to_variant p) = .err .IncorrectType
      ∧ ObjectPath.take_from_variant (ObjectPath.to_variant p) = .ok p)
    ∧ (∀ s : List Nat, Str.take_from_variant (Str.to_variant s) = .ok s)
    ∧ (∀ g : Signature, Signature.take_from_variant (Signature.to_variant g) = .ok g)
    ∧ (∀ v : Variant, Str.is v = false → Str.take_from_variant v = .err .IncorrectType)
    ∧ (∀ v : Variant, ObjectPath.is v = false →
        ObjectPath.take_from_variant v = .err .IncorrectType)
    ∧ (∀ v : Variant, Signature.is v = false →
        Signature.take_from_variant v = .err .IncorrectType) := by
  refine ⟨fun p => ⟨rfl, rfl⟩, fun s => rfl, fun g => rfl, ?_, ?_, ?_⟩ <;>
  · intro v h
    cases v <;> simp_all [Str.is, ObjectPath.is, Signature.is,
      Str.take_from_variant, ObjectPath.take_from_variant, Signature.take_from_variant]

/-- Witness for C7 at the object path `"/"` (byte 47) and a `u32` variant. -/
theorem claim_C7_witness :
    Str.take_from_variant (ObjectPath.to_variant ⟨[47]⟩) = .err .IncorrectType
    ∧ ObjectPath.take_from_variant (ObjectPath.to_variant ⟨[47]⟩) = .ok ⟨[47]⟩
    ∧ Signature.take_from_variant (Variant.U32 7) = .err .IncorrectType := by
  have h := claim_C7_variant_wrap_unwrap
  exact ⟨(h.1 ⟨[47]⟩).1, (h.1 ⟨[47]⟩).2, h.2.2.2.2.2 (Variant.U32 7) (by decide)⟩

/-- C8: the object-path codec is a pure delegation wrapper over the string
codec: encoding is byte-for-byte the string encoding of the path text,
`slice_data` and `decode` (with their own signatures) agree with the string
codec's results up to the `ObjectPath` wrapper, and construction performs no
path-syntax validation. -/
theorem claim_C8_objectpath_delegation :
    (∀ (ne : ByteOrder) (p : ObjectPath) (bytes : List Nat) (ctx : EncodingContext),
      ObjectPath.encode_into ne p bytes ctx = Str.encode_into ne p.path bytes ctx)
    ∧ (∀ (data : List Nat) (ctx : EncodingContext),
      ObjectPath.slice_data data ObjectPath.SIGNATURE_STR ctx
        = Str.slice_data data Str.SIGNATURE_STR ctx)
    ∧ (∀ (data : List Nat) (ctx : EncodingContext),
      ObjectPath.decode data ObjectPath.SIGNATURE_STR ctx
        = VRes.map ObjectPath.mk (Str.decode data Str.SIGNATURE_STR ctx))
    ∧ (∀ t : List Nat, (ObjectPath.new t).as_str = t) := by
  refine ⟨fun ne p bytes ctx => rfl, fun data ctx => ?_, fun data ctx => ?_, fun t => rfl⟩
  · unfold ObjectPath.slice_data
    rw [ensure_correct_signature_self, VRes.bind_ok]
  · unfold ObjectPath.decode
    rw [ensure_correct_signature_self, VRes.bind_ok]

/-! Lemmas about the match-rule string form. -/

theorem addKV_eq (acc : List Char) (kv : List Char × List Char) :
    addKV acc kv = (if acc.isEmpty then acc else acc ++ [',']) ++ renderComponent kv := by
  unfold addKV add_match_rule_string_component renderComponent
  cases acc <;> simp [List.append_assoc]

theorem renderComponent_ne_nil (kv : List Char × List Char) : renderComponent kv ≠ [] := by
  unfold renderComponent
  simp

theorem foldl_addKV_acc (cs : List (List Char × List Char)) :
    ∀ acc : List Char, acc ≠ [] → List.foldl addKV acc cs = acc ++ renderTail cs := by
  induction cs with
  | nil =>
    intro acc _
    simp [renderTail]
  | cons kv rest ih =>
    intro acc h
    have hne : acc.isEmpty = false := by
      cases acc
      · exact absurd rfl h
      · rfl
    rw [List.foldl_cons, addKV_eq, if_neg (by simp [hne])]
    rw [ih (acc ++ [','] ++ renderComponent kv) (by simp)]
    simp [renderTail, List.append_assoc]

theorem foldl_addKV_nil (cs : List (List Char × List Char)) :
    List.foldl addKV [] cs = renderAll cs := by
  cases cs with
  | nil => rfl
  | cons kv rest =>
    rw [List.foldl_cons]
    have h0 : addKV [] kv = renderComponent kv := by
      rw [addKV_eq]
      simp
    rw [h0, foldl_addKV_acc rest _ (renderComponent_ne_nil kv)]
    rfl

theorem to_string_eq_comps (r : MatchRule) (h : r.msg_type ≠ some MessageType.Invalid) :
    r.to_string = .ok (List.foldl addKV [] r.comps) := by
  obtain ⟨mt, sn, itf, mem, ps, dst, a, ap, ns⟩ := r
  rcases mt with _ | t
  · rcases sn with _ | v1 <;> rcases itf with _ | v2 <;> rcases mem with _ | v3 <;>
      rcases dst with _ | v4 <;> rcases ps with _ | (p | p) <;> rfl
  · cases t with
    | Invalid => exact absurd rfl h
    | Error =>
      rcases sn with _ | v1 <;> rcases itf with _ | v2 <;> rcases mem with _ | v3 <;>
        rcases dst with _ | v4 <;> rcases ps with _ | (p | p) <;> rfl
    | MethodCall =>
      rcases sn with _ | v1 <;> rcases itf with _ | v2 <;> rcases mem with _ | v3 <;>
        rcases dst with _ | v4 <;> rcases ps with _ | (p | p) <;> rfl
    | MethodReturn =>
      rcases sn with _ | v1 <;> rcases itf with _ | v2 <;> rcases mem with _ | v3 <;>
        rcases dst with _ | v4 <;> rcases ps with _ | (p | p) <;> rfl
    | Signal =>
      rcases sn with _ | v1 <;> rcases itf with _ | v2 <;> rcases mem with _ | v3 <;>
        rcases dst with _ | v4 <;> rcases ps with _ | (p | p) <;> rfl

theorem to_string_ignores_args (r : MatchRule) :
    MatchRule.to_string { r with args := [], arg_paths := [], arg0namespace := none }
      = r.to_string := by
  obtain ⟨mt, sn, itf, mem, ps, dst, a, ap, ns⟩ := r
  rfl

theorem rustSplitAux_no_sep (sep : Char) (p : List Char) (hp : sep ∉ p) :
    ∀ (rest cur : List Char),
      rustSplitAux sep (p ++ rest) cur = rustSplitAux sep rest (p.reverse ++ cur) := by
  induction p with
  | nil =>
    intro rest cur
    simp
  | cons c p ih =>
    intro rest cur
    have hc : ¬(c = sep) := fun e => hp (by simp [e])
    rw [List.cons_append]
    rw [show rustSplitAux sep (c :: (p ++ rest)) cur
        = rustSplitAux sep (p ++ rest) (c :: cur) from by simp [rustSplitAux, hc]]
    rw [ih (fun hm => hp (by simp [hm])) rest (c :: cur)]
    simp

theorem rustSplit_no_sep (sep : Char) (p : List Char) (hp : sep ∉ p) :
    rustSplit sep p = [p] := by
  unfold rustSplit
  rw [show p = p ++ [] from by simp] at hp ⊢
  rw [rustSplitAux_no_sep sep p (by simpa using hp) [] []]
  simp [rustSplitAux]

theorem rustSplit_sep_append (sep : Char) (p rest : List Char) (hp : sep ∉ p) :
    rustSplit sep (p ++ sep :: rest) = p :: rustSplit sep rest := by
  unfold rustSplit
  rw [rustSplitAux_no_sep sep p hp (sep :: rest) []]
  simp [rustSplitAux]

theorem rustSplit_renderAll (cs : List (List Char × List Char)) (hcs : cs ≠ [])
    (h : ∀ kv ∈ cs, ',' ∉ renderComponent kv) :
    rustSplit ',' (renderAll cs) = cs.map renderComponent := by
  induction cs with
  | nil => exact absurd rfl hcs
  | cons kv rest ih =>
    cases rest with
    | nil =>
      rw [show renderAll [kv] = renderComponent kv ++ [] from by simp [renderAll, renderTail]]
      rw [List.append_nil]
      rw [rustSplit_no_sep ',' _ (h kv (by simp))]
      rfl
    | cons kv2 rest2 =>
      rw [show renderAll (kv :: kv2 :: rest2)
          = renderComponent kv ++ (',' :: renderAll (kv2 :: rest2)) from rfl]
      rw [rustSplit_sep_append ',' _ _ (h kv (by simp))]
      rw [ih (by simp) (fun kv2 hkv2 => h kv2 (by simp [hkv2]))]
      rfl

theorem rustSplitOnce_key (k : List Char) (hk : '=' ∉ k) (t : List Char) :
    rustSplitOnce '=' (k ++ '=' :: t) = some (k, t) := by
  induction k with
  | nil => simp [rustSplitOnce]
  | cons c k ih =>
    have hc : ¬(c = '=') := fun e => hk (by simp [e])
    rw [List.cons_append]
    simp only [rustSplitOnce, if_neg hc]
    rw [ih (fun hm => hk (by simp [hm]))]

theorem renderComponent_split (k v : List Char) :
    renderComponent (k, v) = k ++ '=' :: (quoteChar :: (v ++ [quoteChar])) := by
  simp [renderComponent]

theorem quoted_getLast (v : List Char) :
    (quoteChar :: (v ++ [quoteChar])).getLast? = some quoteChar := by
  rw [← List.cons_append]
  exact List.getLast?_concat _

theorem quoted_dropLast (v : List Char) :
    ((quoteChar :: (v ++ [quoteChar])).drop 1).dropLast = v := by
  rw [show (quoteChar :: (v ++ [quoteChar])).drop 1 = v ++ [quoteChar] from rfl]
  exact List.dropLast_concat

theorem parse_checks_pass (k v : List Char) (hk : k ≠ []) (hv : v ≠ []) :
    ¬(k = [] ∨ (quoteChar :: (v ++ [quoteChar])).length < 3
      ∨ (quoteChar :: (v ++ [quoteChar])).head? ≠ some quoteChar
      ∨ (quoteChar :: (v ++ [quoteChar])).getLast? ≠ some quoteChar) := by
  push_neg
  refine ⟨hk, ?_, rfl, quoted_getLast v⟩
  have hlen : 1 ≤ v.length := List.length_pos.mpr hv
  simp
  omega

theorem parseKeyValue_allowed (b : MatchRule) (k v : List Char) (hk : k ∈ allowedKeys) :
    parseKeyValue b k v = .invalidMatchRule
    ∨ ∃ b2, parseKeyValue b k v = .ok b2
        ∧ b2.args = b.args ∧ b2.arg_paths = b.arg_paths
        ∧ b2.arg0namespace = b.arg0namespace := by
  simp only [allowedKeys, List.mem_cons, List.not_mem_nil, or_false] at hk
  rcases hk with rfl | rfl | rfl | rfl | rfl | rfl | rfl
  · unfold parseKeyValue
    rw [if_pos rfl]
    split_ifs
    · exact Or.inr ⟨_, rfl, rfl, rfl, rfl⟩
    · exact Or.inr ⟨_, rfl, rfl, rfl, rfl⟩
    · exact Or.inr ⟨_, rfl, rfl, rfl, rfl⟩
    · exact Or.inr ⟨_, rfl, rfl, rfl, rfl⟩
    · exact Or.inl rfl
  · exact Or.inr ⟨{ b with sender := some v }, by unfold parseKeyValue; simp, rfl, rfl, rfl⟩
  · exact Or.inr ⟨{ b with interface := some v }, by unfold parseKeyValue; simp, rfl, rfl, rfl⟩
  · exact Or.inr ⟨{ b with member := some v }, by unfold parseKeyValue; simp, rfl, rfl, rfl⟩
  · exact Or.inr ⟨{ b with destination := some v }, by unfold parseKeyValue; simp, rfl, rfl, rfl⟩
  · exact Or.inr ⟨{ b with path_spec := some (.Path v) }, by unfold parseKeyValue; simp, rfl, rfl, rfl⟩
  · exact Or.inr ⟨{ b with path_spec := some (.PathNamespace v) },
      by unfold parseKeyValue; simp, rfl, rfl, rfl⟩

theorem parseComponent_some (b : MatchRule) (k value comp : List Char)
    (hsplit : rustSplitOnce '=' comp = some (k, value)) :
    parseComponent b comp
      = if k = [] ∨ value.length < 3 ∨ value.head? ≠ some quoteChar
          ∨ value.getLast? ≠ some quoteChar then .invalidMatchRule
        else parseKeyValue b k ((value.drop 1).dropLast) := by
  unfold parseComponent
  rw [hsplit]

theorem parseComponent_render (b : MatchRule) (kv : List Char × List Char)
    (hk : kv.1 ∈ allowedKeys) :
    parseComponent b (renderComponent kv) = .invalidMatchRule
    ∨ ∃ b2, parseComponent b (renderComponent kv) = .ok b2
        ∧ b2.args = b.args ∧ b2.arg_paths = b.arg_paths
        ∧ b2.arg0namespace = b.arg0namespace := by
  obtain ⟨k, v⟩ := kv
  have hkeq : '=' ∉ k := by
    have hk2 := hk
    simp only [allowedKeys, List.mem_cons, List.not_mem_nil, or_false] at hk2
    rcases hk2 with rfl | rfl | rfl | rfl | rfl | rfl | rfl <;> decide
  have hkne : k ≠ [] := by
    have hk2 := hk
    simp only [allowedKeys, List.mem_cons, List.not_mem_nil, or_false] at hk2
    rcases hk2 with rfl | rfl | rfl | rfl | rfl | rfl | rfl <;> decide
  have hps := parseComponent_some b k (quoteChar :: (v ++ [quoteChar]))
      (renderComponent (k, v))
      (by rw [renderComponent_split]; exact rustSplitOnce_key k hkeq _)
  by_cases hv : v = []
  · subst hv
    have heq : parseComponent b (renderComponent (k, [])) = .invalidMatchRule := by
      rw [hps, if_pos (by simp)]
    exact Or.inl heq
  · have heq : parseComponent b (renderComponent (k, v)) = parseKeyValue b k v := by
      rw [hps, if_neg (parse_checks_pass k v hkne hv), quoted_dropLast]
    rw [heq]
    exact parseKeyValue_allowed b k v hk

theorem parseComponents_map_render (cs : List (List Char × List Char)) :
    ∀ b r2 : MatchRule, (∀ kv ∈ cs, kv.1 ∈ allowedKeys) →
      parseComponents b (cs.map renderComponent) = .ok r2 →
      r2.args = b.args ∧ r2.arg_paths = b.arg_paths
        ∧ r2.arg0namespace = b.arg0namespace := by
  induction cs with
  | nil =>
    intro b r2 _ h
    have hb : b = r2 := by simpa [parseComponents] using h
    subst hb
    exact ⟨rfl, rfl, rfl⟩
  | cons kv rest ih =>
    intro b r2 hall h
    rw [List.map_cons] at h
    rcases parseComponent_render b kv (hall kv (by simp)) with hbad | ⟨b2, hok2, ha, hap, hns⟩
    · rw [show parseComponents b (renderComponent kv :: List.map renderComponent rest)
          = .invalidMatchRule from by simp [parseComponents, hbad]] at h
      exact absurd h (by simp)
    · rw [show parseComponents b (renderComponent kv :: List.map renderComponent rest)
          = parseComponents b2 (List.map renderComponent rest) from by
        simp [parseComponents, hok2]] at h
      obtain ⟨h1, h2, h3⟩ := ih b2 r2 (fun kv2 hkv2 => hall kv2 (by simp [hkv2])) h
      exact ⟨h1.trans ha, h2.trans hap, h3.trans hns⟩

theorem mem_typeComp {o : Option MessageType} {kv : List Char × List Char}
    (h : kv ∈ typeComp o) : ∃ t, o = some t ∧ kv = ("type".toList, typeValue t) := by
  rcases o with _ | t
  · simp [typeComp] at h
  · simp [typeComp] at h
    exact ⟨t, rfl, h⟩

theorem mem_optComp {K : List Char} {o : Option (List Char)} {kv : List Char × List Char}
    (h : kv ∈ optComp K o) : ∃ v, o = some v ∧ kv = (K, v) := by
  rcases o with _ | v
  · simp [optComp] at h
  · simp [optComp] at h
    exact ⟨v, rfl, h⟩

theorem mem_pathComp {o : Option MatchRulePathSpec} {kv : List Char × List Char}
    (h : kv ∈ pathComp o) :
    (∃ p, o = some (.Path p) ∧ kv = ("path".toList, p))
    ∨ (∃ p, o = some (.PathNamespace p) ∧ kv = ("path_namespace".toList, p)) := by
  rcases o with _ | (p | p)
  · simp [pathComp] at h
  · simp [pathComp] at h
    exact Or.inl ⟨p, rfl, h⟩
  · simp [pathComp] at h
    exact Or.inr ⟨p, rfl, h⟩

theorem comps_key_allowed (r : MatchRule) : ∀ kv ∈ r.comps, kv.1 ∈ allowedKeys := by
  intro kv hkv
  unfold MatchRule.comps at hkv
  simp only [List.mem_append] at hkv
  rcases hkv with ((((h | h) | h) | h) | h) | h
  · obtain ⟨t, _, rfl⟩ := mem_typeComp h
    exact (by decide : ("type".toList : List Char) ∈ allowedKeys)
  · obtain ⟨v, _, rfl⟩ := mem_optComp h
    exact (by decide : ("sender".toList : List Char) ∈ allowedKeys)
  · obtain ⟨v, _, rfl⟩ := mem_optComp h
    exact (by decide : ("interface".toList : List Char) ∈ allowedKeys)
  · obtain ⟨v, _, rfl⟩ := mem_optComp h
    exact (by decide : ("member".toList : List Char) ∈ allowedKeys)
  · obtain ⟨v, _, rfl⟩ := mem_optComp h
    exact (by decide : ("destination".toList : List Char) ∈ allowedKeys)
  · rcases mem_pathComp h with ⟨p, _, rfl⟩ | ⟨p, _, rfl⟩
    · exact (by decide : ("path".toList : List Char) ∈ allowedKeys)
    · exact (by decide : ("path_namespace".toList : List Char) ∈ allowedKeys)

theorem comps_value_noComma (r : MatchRule) (hcf : r.commaFree) :
    ∀ kv ∈ r.comps, ',' ∉ kv.2 := by
  obtain ⟨hsn, hitf, hmem, hdst, hps⟩ := hcf
  intro kv hkv
  unfold MatchRule.comps at hkv
  simp only [List.mem_append] at hkv
  rcases hkv with ((((h | h) | h) | h) | h) | h
  · obtain ⟨t, _, rfl⟩ := mem_typeComp h
    cases t <;> decide
  · obtain ⟨v, hv, rfl⟩ := mem_optComp h
    rw [hv] at hsn
    exact hsn
  · obtain ⟨v, hv, rfl⟩ := mem_optComp h
    rw [hv] at hitf
    exact hitf
  · obtain ⟨v, hv, rfl⟩ := mem_optComp h
    rw [hv] at hmem
    exact hmem
  · obtain ⟨v, hv, rfl⟩ := mem_optComp h
    rw [hv] at hdst
    exact hdst
  · rcases mem_pathComp h with ⟨p, hp, rfl⟩ | ⟨p, hp, rfl⟩ <;>
    · rw [hp] at hps
      exact hps

theorem comma_notin_renderComponent (kv : List Char × List Char)
    (hk : kv.1 ∈ allowedKeys) (hv : ',' ∉ kv.2) : ',' ∉ renderComponent kv := by
  obtain ⟨k, v⟩ := kv
  have hkc : ',' ∉ k := by
    simp only [allowedKeys, List.mem_cons, List.not_mem_nil, or_false] at hk
    rcases hk with rfl | rfl | rfl | rfl | rfl | rfl | rfl <;> decide
  intro hmem
  rw [renderComponent_split] at hmem
  rcases List.mem_append.mp hmem with h | h
  · exact hkc h
  · rcases List.mem_cons.mp h with h | h
    · exact absurd h (by decide)
    · rcases List.mem_cons.mp h with h | h
      · exact absurd h (by decide)
      · rcases List.mem_append.mp h with h | h
        · exact hv h
        · exact absurd (List.mem_singleton.mp h) (by decide)

theorem try_from_renderAll_args (cs : List (List Char × List Char)) (hcs : cs ≠ [])
    (hkeys : ∀ kv ∈ cs, kv.1 ∈ allowedKeys)
    (hnc : ∀ kv ∈ cs, ',' ∉ renderComponent kv) (r2 : MatchRule)
    (h : MatchRule.try_from (renderAll cs) = .ok r2) :
    r2.args = [] ∧ r2.arg_paths = [] ∧ r2.arg0namespace = none := by
  unfold MatchRule.try_from at h
  rw [rustSplit_renderAll cs hcs hnc] at h
  rw [if_neg (by simp [hcs])] at h
  exact parseComponents_map_render cs {} r2 hkeys h

/-- C10: `MatchRule::to_string` emits only the type, sender, interface,
member, destination and path/path-namespace components — its output is
independent of `args`, `arg_paths` and `arg0namespace` — and consequently,
for a rule whose names are comma-free (as D-Bus name syntax guarantees),
any successful `try_from` of the string form yields a rule with empty
`args`, empty `arg_paths` and no `arg0namespace`, hence differs from the
original whenever those fields were set. -/
theorem claim_C10_matchrule_string_form :
    ∀ (r : MatchRule) (s : List Char), r.commaFree → r.to_string = .ok s →
      MatchRule.to_string { r with args := [], arg_paths := [], arg0namespace := none } = .ok s
      ∧ ∀ r2 : MatchRule, MatchRule.try_from s = .ok r2 →
          r2.args = [] ∧ r2.arg_paths = [] ∧ r2.arg0namespace = none
          ∧ ((r.args ≠ [] ∨ r.arg_paths ≠ [] ∨ r.arg0namespace ≠ none) → r2 ≠ r) := by
  intro r s hcf hok
  refine ⟨by rw [to_string_ignores_args]; exact hok, ?_⟩
  intro r2 htf
  have hmt : r.msg_type ≠ some MessageType.Invalid := by
    intro he
    have hpan : r.to_string = .panicked := by
      unfold MatchRule.to_string
      rw [he]
    rw [hpan] at hok
    exact absurd hok (by simp)
  have hs : s = renderAll r.comps := by
    have h2 := to_string_eq_comps r hmt
    rw [hok] at h2
    injection h2 with h4
    rw [foldl_addKV_nil] at h4
    exact h4
  subst hs
  by_cases hcs : r.comps = []
  · rw [hcs] at htf
    rw [show MatchRule.try_from (renderAll []) = .invalidMatchRule from rfl] at htf
    exact absurd htf (by simp)
  · have hkeys := comps_key_allowed r
    have hvals := comps_value_noComma r hcf
    have hnc : ∀ kv ∈ r.comps, ',' ∉ renderComponent kv := fun kv hkv =>
      comma_notin_renderComponent kv (hkeys kv hkv) (hvals kv hkv)
    obtain ⟨h1, h2, h3⟩ := try_from_renderAll_args r.comps hcs hkeys hnc r2 htf
    refine ⟨h1, h2, h3, ?_⟩
    intro hne heq
    rcases hne with hne | hne | hne
    · exact hne (by rw [← heq, h1])
    · exact hne (by rw [← heq, h2])
    · exact hne (by rw [← heq, h3])

/-- Witness for C10: the rule `type='signal',sender='a.b'` carrying one
`arg`: the arg is not emitted, and the reparsed rule differs from the
original exactly in the arg list. -/
theorem claim_C10_witness :
    MatchRule.to_string
        { msg_type := some MessageType.Signal, sender := some "a.b".toList }
      = .ok ("type=".toList ++ [quoteChar] ++ "signal".toList ++ [quoteChar] ++ [',']
          ++ "sender=".toList ++ [quoteChar] ++ "a.b".toList ++ [quoteChar])
    ∧ ({ msg_type := some MessageType.Signal, sender := some "a.b".toList } : MatchRule)
      ≠ { msg_type := some MessageType.Signal, sender := some "a.b".toList,
          args := ["x".toList] } := by
  have h := claim_C10_matchrule_string_form
      { msg_type := some MessageType.Signal, sender := some "a.b".toList,
        args := ["x".toList] }
      ("type=".toList ++ [quoteChar] ++ "signal".toList ++ [quoteChar] ++ [',']
        ++ "sender=".toList ++ [quoteChar] ++ "a.b".toList ++ [quoteChar])
      (by decide) (by decide)
  have h2 := h.2 { msg_type := some MessageType.Signal, sender := some "a.b".toList }
      (by decide)
  exact ⟨h.1, h2.2.2.2 (Or.inl (by decide))⟩
